import Mathlib

/-!
Shallow embedding of the recommendation-and-progress-analytics layer of the
DevSkill learning-progress application, together with proofs checking its
natural-language specification against the code.

Sources embedded (TypeScript):
* `RecommenderAgent` (`identifySkillGaps`, `analyzeLearningPatterns`,
  `createWeightedRecommendations`, `generatePersonalizedRecommendations`,
  `getUserRecommendations`);
* `TrackerAgent` (`calculateLearningStreak`, `checkForAchievements`,
  `calculateSkillProgression`);
* `DatabaseStorage.updateModuleProgress`.

Modelling conventions:
* JavaScript numbers are modelled as exact rationals (`ℚ`);
* timestamps (`Date.getTime()` milliseconds) as integers (`ℤ`);
* nullable columns as `Option`;
* `Array.prototype.sort(cmp)` — a stable comparison sort in every modern
  engine — as `List.insertionSort` over the comparator's "may come before"
  relation;
* `String.prototype.toLowerCase` character-wise over ASCII (all strings the
  analytics compares are ASCII technology/difficulty names);
* functions whose only effects are reads of already-fetched rows and writes
  of derived rows are modelled as pure functions of the fetched data.
-/

namespace DevSkill

/-- ASCII lower-casing of one character, as JS `toLowerCase` acts on ASCII. -/
def lowerChar (c : Char) : Char :=
  if 'A' ≤ c ∧ c ≤ 'Z' then Char.ofNat (c.toNat + 32) else c

/-- The characters of `s` lower-cased (JS `s.toLowerCase()`). -/
def lowerOf (s : String) : List Char := s.data.map lowerChar

/-- `startsL hay needle`: `needle` is a prefix of `hay`. -/
def startsL : List Char → List Char → Bool
  | _, [] => true
  | [], _ :: _ => false
  | h :: hs, n :: ns => h == n && startsL hs ns

/-- `containsLC hay needle`: `needle` occurs contiguously in `hay`
(JS `hay.includes(needle)`). -/
def containsLC : List Char → List Char → Bool
  | [], needle => startsL [] needle
  | h :: hs, needle => startsL (h :: hs) needle || containsLC hs needle

/-- JS `s.toLowerCase().includes(t.toLowerCase())`. -/
def includesIns (s t : String) : Bool := containsLC (lowerOf s) (lowerOf t)

/-- A profile skill entry `{skill, level, vectorScore}` (jsonb `skills`). -/
structure Skill where
  skill : String
  level : ℚ
  vectorScore : ℚ
deriving DecidableEq

/-- A skill-gap entry `{skill, gapScore}` produced by `identifySkillGaps`. -/
structure SkillGap where
  skill : String
  gapScore : ℚ
deriving DecidableEq

/-- `RecommenderAgent.identifySkillGaps`: keep the skills with `level < 70`,
pair each with `gapScore = (70 - level) / 70`, sort descending by `gapScore`
(comparator `(a, b) => b.gapScore - a.gapScore`). -/
def identifySkillGaps (skills : List Skill) : List SkillGap :=
  let gaps := (skills.filter (fun s => decide (s.level < 70))).map
    (fun s => (⟨s.skill, (70 - s.level) / 70⟩ : SkillGap))
  List.insertionSort (fun a b => b.gapScore ≤ a.gapScore) gaps

/-- A user-assessment row joined with its assessment definition: the fields of
`UserAssessment & \x7b assessment: Assessment \x7d` the analytics reads
(`assessment.technology`, `assessment.difficulty`, `score`, `completedAt`). -/
structure UserAssessment where
  technology : String
  difficulty : String
  score : ℚ
  completedAt : ℤ
deriving DecidableEq

/-- A module-progress row as `analyzeLearningPatterns` reads it: `progress`
(nullable `real`, null read as 0), `startedAt` (not null), `completedAt`
(nullable). -/
structure PatternProgress where
  progress : ℚ
  startedAt : ℤ
  completedAt : Option ℤ
deriving DecidableEq

/-- The result record of `analyzeLearningPatterns`. -/
structure LearningPatterns where
  preferredDifficulty : String
  preferredDuration : ℚ
  completionRate : ℚ
  avgTimeToComplete : ℚ
deriving DecidableEq

/-- The keys of a JS object built by inserting the listed keys in order:
first-occurrence order (`Object.keys` preserves string-key insertion order). -/
def keysInOrder (l : List String) : List String :=
  l.foldl (fun ks k => if k ∈ ks then ks else ks ++ [k]) []

/-- The scores pushed under difficulty key `d` when `analyzeLearningPatterns`
builds `difficultyPerformance`. -/
def scoresForDifficulty (hist : List UserAssessment) (d : String) : List ℚ :=
  (hist.filter (fun a => decide (a.difficulty = d))).map (fun a => a.score)

/-- Mean of a list of rationals (`reduce((sum, s) => sum + s, 0) / length`). -/
def listMean (xs : List ℚ) : ℚ := xs.sum / (xs.length : ℚ)

/-- JS `Math.round` on the (non-negative) values arising here:
round half up. -/
def jsRound (q : ℚ) : ℤ := ⌊q + 1 / 2⌋

/-- The fold step of `analyzeLearningPatterns`: keep the difficulty with the
best average so far, starting from `("intermediate", 0)`, updating only on a
strictly larger average. -/
def bestDifficultyStep (f : String → ℚ) (acc : String × ℚ) (d : String) : String × ℚ :=
  if acc.2 < f d then (d, f d) else acc

/-- `RecommenderAgent.analyzeLearningPatterns`, transcribed clause by clause:
preferred difficulty from per-difficulty average assessment scores, completion
rate and average completion time from module progress, preferred duration as
`max(1, min(8, round(avgTimeToComplete || 3)))`. -/
def analyzeLearningPatterns (assessmentHistory : List UserAssessment)
    (moduleProgress : List PatternProgress) : LearningPatterns :=
  let preferredDifficulty :=
    if 0 < assessmentHistory.length then
      ((keysInOrder (assessmentHistory.map (fun a => a.difficulty))).foldl
        (bestDifficultyStep (fun d => listMean (scoresForDifficulty assessmentHistory d)))
        ("intermediate", 0)).1
    else "intermediate"
  let completedModules := moduleProgress.filter (fun p => decide (100 ≤ p.progress))
  let completionRate :=
    if 0 < moduleProgress.length then
      (completedModules.length : ℚ) / (moduleProgress.length : ℚ)
    else 0
  let completedWithDuration := completedModules.filter (fun p => p.completedAt.isSome)
  let avgTimeToComplete :=
    if 0 < completedWithDuration.length then
      (completedWithDuration.map
        (fun p => ((p.completedAt.getD 0 - p.startedAt : ℤ) : ℚ) / 3600000)).sum /
        (completedWithDuration.length : ℚ)
    else 0
  let preferredDuration : ℚ :=
    if 0 < moduleProgress.length then
      max 1 (min 8 ((jsRound (if avgTimeToComplete = 0 then 3 else avgTimeToComplete) : ℤ) : ℚ))
    else 3
  ⟨preferredDifficulty, preferredDuration, completionRate, avgTimeToComplete⟩

/-- An AI-suggested recommendation `{technology, reason, priority}`. -/
structure AIRec where
  technology : String
  reason : String
  priority : ℚ
deriving DecidableEq

/-- A learning-module catalog row, restricted to the fields the scorer reads. -/
structure LearningModule where
  id : String
  technology : String
  title : String
  difficulty : String
  duration : ℚ
  rating : ℚ
deriving DecidableEq

/-- A scored recommendation `{moduleId, score, reason}`. -/
structure WeightedRec where
  moduleId : String
  score : ℚ
  reason : String
deriving DecidableEq

/-- A module matches an AI suggestion when its technology or title contains
the suggestion's technology, case-insensitively. -/
def moduleMatches (m : LearningModule) (tech : String) : Bool :=
  includesIns m.technology tech || includesIns m.title tech

/-- A skill-gap entry is related to an AI suggestion's technology when either
string contains the other, case-insensitively. -/
def gapMatches (g : SkillGap) (tech : String) : Bool :=
  includesIns g.skill tech || includesIns tech g.skill

/-- The scoring of one (AI suggestion, matching module) pair inside
`createWeightedRecommendations`: base `priority / 100`, plus
`gapScore * 0.3` on a related skill gap, `0.2` on matching difficulty, `0.1`
on duration within 1, `0.15` on rating at least 4.5, clamped to [0, 1];
reason text appends the skill-gap note when a gap matched. -/
def weightedRecFor (aiRec : AIRec) (skillGaps : List SkillGap)
    (patterns : LearningPatterns) (m : LearningModule) : WeightedRec :=
  let base := aiRec.priority / 100
  let relatedGap := skillGaps.find? (fun g => gapMatches g aiRec.technology)
  let s1 := match relatedGap with
    | some g => base + g.gapScore * (3 / 10)
    | none => base
  let s2 := if m.difficulty = patterns.preferredDifficulty then s1 + 2 / 10 else s1
  let s3 := if |m.duration - patterns.preferredDuration| ≤ 1 then s2 + 1 / 10 else s2
  let s4 := if (9 / 2 : ℚ) ≤ m.rating then s3 + 15 / 100 else s3
  ⟨m.id, min 1 (max 0 s4),
    aiRec.reason ++ " " ++
      (if relatedGap.isSome then "This addresses a skill gap in your profile." else "")⟩

/-- The recommendation tuples in generation order: per AI suggestion, per
matching catalog module, as `createWeightedRecommendations` pushes them
before its final sort. -/
def weightedRecsRaw (aiRecs : List AIRec) (skillGaps : List SkillGap)
    (patterns : LearningPatterns) (allModules : List LearningModule) : List WeightedRec :=
  aiRecs.flatMap (fun aiRec =>
    (allModules.filter (fun m => moduleMatches m aiRec.technology)).map
      (fun m => weightedRecFor aiRec skillGaps patterns m))

/-- `RecommenderAgent.createWeightedRecommendations`: generate all scored
tuples, then `return recommendations.sort((a, b) => b.score - a.score)` —
the scorer itself returns them sorted descending by score. -/
def createWeightedRecommendations (aiRecs : List AIRec) (skillGaps : List SkillGap)
    (patterns : LearningPatterns) (allModules : List LearningModule) : List WeightedRec :=
  List.insertionSort (fun a b => b.score ≤ a.score)
    (weightedRecsRaw aiRecs skillGaps patterns allModules)

/-- `RecommenderAgent.getUserRecommendations`: sort the stored rows descending
by score and take the first `limit`. -/
def getUserRecommendations (recommendations : List WeightedRec) (limit : Nat) : List WeightedRec :=
  (List.insertionSort (fun a b => b.score ≤ a.score) recommendations).take limit

/-- A profile row as `generatePersonalizedRecommendations` reads it: the
`skills` jsonb column is nullable. -/
structure Profile where
  skills : Option (List Skill)
deriving DecidableEq

/-- `RecommenderAgent.generatePersonalizedRecommendations` on already-fetched
collaborator data: it throws (`Except.error`) exactly when
`!profile || !profile.skills` — the profile row is absent or its `skills`
column is null; otherwise it computes the weighted recommendations to store.
A present but empty `skills` array is truthy in JS and proceeds. -/
def generatePersonalizedRecommendations (profile : Option Profile)
    (assessmentHistory : List UserAssessment) (moduleProgress : List PatternProgress)
    (aiRecommendations : List AIRec) (allModules : List LearningModule) :
    Except String (List WeightedRec) :=
  match profile with
  | none => .error "User profile not found or incomplete"
  | some p =>
    match p.skills with
    | none => .error "User profile not found or incomplete"
    | some skills =>
      .ok (createWeightedRecommendations aiRecommendations (identifySkillGaps skills)
        (analyzeLearningPatterns assessmentHistory moduleProgress) allModules)

/-- Milliseconds in one calendar day. -/
def dayMs : ℤ := 86400000

/-- Whether some record's `lastAccessedAt` falls within
`[00:00:00.000, 23:59:59.999]` of calendar day `day` (days counted from the
epoch; `timestamps` are the records' `lastAccessedAt` values in ms). -/
def hasActivityOnDay (timestamps : List ℤ) (day : ℤ) : Bool :=
  timestamps.any (fun t => decide (day * dayMs ≤ t ∧ t ≤ day * dayMs + (dayMs - 1)))

/-- The day-by-day backward walk of `calculateLearningStreak`: `day` is the
day under inspection, `i` the loop index (0 on today), `fuel` the remaining
iterations (365 at the start), `streak` the count so far. A qualifying day
increments the streak; a non-qualifying day ends the walk unless `i = 0`. -/
def streakAux (timestamps : List ℤ) : ℤ → Nat → Nat → Nat → Nat
  | _, _, 0, streak => streak
  | day, i, fuel + 1, streak =>
    if hasActivityOnDay timestamps day then
      streakAux timestamps (day - 1) (i + 1) fuel (streak + 1)
    else if 0 < i then
      streak
    else
      streakAux timestamps (day - 1) (i + 1) fuel streak

/-- `TrackerAgent.calculateLearningStreak` on the user's fetched
module-progress rows, reduced to their `lastAccessedAt` timestamps: return 0
at once on an empty history, otherwise walk backwards from `today` (a day
index) for at most 365 days. -/
def calculateLearningStreak (timestamps : List ℤ) (today : ℤ) : Nat :=
  if timestamps.isEmpty then 0
  else streakAux timestamps today 0 365 0

/-- A module-progress row as the tracker reads it: `progress ?? 0` and
`lastAccessedAt` (ms). -/
structure TrackRec where
  progress : ℚ
  lastAccessedAt : ℤ
deriving DecidableEq

/-- The alerts `checkForAchievements` persists, identified by kind and the
number interpolated into the message. -/
inductive AlertKind where
  | completion : AlertKind
  | milestone : Nat → AlertKind
  | streakAward : Nat → AlertKind
deriving DecidableEq

/-- `TrackerAgent.checkForAchievements`, run after a progress update: a
completion alert when the new `progressPercentage ≥ 100`; a milestone alert
when the completed-module count (rows with `progress ≥ 100`) is exactly one of
1, 5, 10, 25, 50; a streak alert when the recomputed streak is exactly one of
7, 14, 30, 60. -/
def checkForAchievements (progressPercentage : ℚ) (userProgress : List TrackRec)
    (today : ℤ) : List AlertKind :=
  (if 100 ≤ progressPercentage then [AlertKind.completion] else []) ++
  (let completedModules := (userProgress.filter (fun p => decide (100 ≤ p.progress))).length
   (if completedModules ∈ [1, 5, 10, 25, 50] then [AlertKind.milestone completedModules]
    else []) ++
   (let streak := calculateLearningStreak (userProgress.map (fun p => p.lastAccessedAt)) today
    if streak ∈ [7, 14, 30, 60] then [AlertKind.streakAward streak] else []))

/-- The trend classification of `calculateSkillProgression`. -/
inductive Trend where
  | improving : Trend
  | stable : Trend
  | declining : Trend
deriving DecidableEq

/-- The per-technology trend computation of `calculateSkillProgression`, on
the group's scores already sorted ascending by date: with at least 2 scores,
`recent = slice(-3)`, `older = slice(0, -3)`; when `recent` has at least 2 and
`older` at least 1, compare the averages with a margin of 5. -/
def trendForScores (scores : List ℚ) : Trend :=
  if 2 ≤ scores.length then
    let recent := scores.drop (scores.length - 3)
    let older := scores.take (scores.length - 3)
    if 2 ≤ recent.length ∧ 1 ≤ older.length then
      if listMean older + 5 < listMean recent then Trend.improving
      else if listMean recent < listMean older - 5 then Trend.declining
      else Trend.stable
    else Trend.stable
  else Trend.stable

/-- One `{score, date}` entry of a technology's score group. -/
structure ScoreEntry where
  score : ℚ
  date : ℤ
deriving DecidableEq

/-- One element of `calculateSkillProgression`'s result. -/
structure SkillProgressionEntry where
  technology : String
  scores : List ScoreEntry
  trend : Trend
deriving DecidableEq

/-- `TrackerAgent.calculateSkillProgression`: group the assessment history by
technology (object-key insertion order), sort each group ascending by
`completedAt` (comparator `a.date - b.date`), and classify its trend. -/
def calculateSkillProgression (assessmentHistory : List UserAssessment) :
    List SkillProgressionEntry :=
  (keysInOrder (assessmentHistory.map (fun a => a.technology))).map (fun tech =>
    let entries := (assessmentHistory.filter (fun a => decide (a.technology = tech))).map
      (fun a => (⟨a.score, a.completedAt⟩ : ScoreEntry))
    let sorted := List.insertionSort (fun a b => a.date ≤ b.date) entries
    ⟨tech, sorted, trendForScores (sorted.map (fun e => e.score))⟩)

/-- A `user_module_progress` row, restricted to the fields
`updateModuleProgress` writes (`startedAt` is left to its column default). -/
structure StoredProgress where
  userId : String
  moduleId : String
  progress : ℚ
  lastAccessedAt : ℤ
  completedAt : Option ℤ
deriving DecidableEq

/-- The `where userId = ... and moduleId = ...` condition of
`updateModuleProgress`. -/
def matchesKey (r : StoredProgress) (userId moduleId : String) : Bool :=
  decide (r.userId = userId) && decide (r.moduleId = moduleId)

/-- `DatabaseStorage.updateModuleProgress` on the progress table: update every
row matching `(userId, moduleId)` — setting `progress`, `lastAccessedAt = now`
and `completedAt = progress >= 100 ? now : null` — or insert a fresh row with
the same `completedAt` rule when none matches. -/
def updateModuleProgress (table : List StoredProgress) (userId moduleId : String)
    (progress : ℚ) (now : ℤ) : List StoredProgress :=
  if table.any (fun r => matchesKey r userId moduleId) then
    table.map (fun r =>
      if matchesKey r userId moduleId then
        (⟨r.userId, r.moduleId, progress, now,
          if 100 ≤ progress then some now else none⟩ : StoredProgress)
      else r)
  else
    table ++ [⟨userId, moduleId, progress, now,
      if 100 ≤ progress then some now else none⟩]

theorem streakAux_step (timestamps : List ℤ) (day : ℤ) (i fuel streak : Nat)
    (hf : fuel ≠ 0) (h : hasActivityOnDay timestamps day = true) :
    streakAux timestamps day i fuel streak =
      streakAux timestamps (day - 1) (i + 1) (fuel - 1) (streak + 1) := by
  cases fuel with
  | zero => exact absurd rfl hf
  | succ f => simp [streakAux, h]

theorem streakAux_stop (timestamps : List ℤ) (day : ℤ) (i fuel streak : Nat)
    (hf : fuel ≠ 0) (hi : 0 < i) (h : hasActivityOnDay timestamps day = false) :
    streakAux timestamps day i fuel streak = streak := by
  cases fuel with
  | zero => exact absurd rfl hf
  | succ f => simp [streakAux, h, hi]

/-- C10: a user with zero module-progress records gets a learning streak of 0,
by the immediate empty-history return of `calculateLearningStreak`, for every
current day: an empty history can never produce a positive streak. -/
theorem streak_of_empty_history_is_zero (today : ℤ) :
    calculateLearningStreak [] today = 0 := by
  simp [calculateLearningStreak]

theorem streakAux_skip (timestamps : List ℤ) (day : ℤ) (fuel streak : Nat)
    (hf : fuel ≠ 0) (h : hasActivityOnDay timestamps day = false) :
    streakAux timestamps day 0 fuel streak =
      streakAux timestamps (day - 1) 1 (fuel - 1) streak := by
  cases fuel with
  | zero => exact absurd rfl hf
  | succ f => simp [streakAux, h]

theorem streak_on_T_Tm1_Tm3_is_two (T : ℤ) :
    calculateLearningStreak [T * dayMs, (T - 1) * dayMs, (T - 3) * dayMs] T = 2 := by
  have h0 : hasActivityOnDay [T * dayMs, (T - 1) * dayMs, (T - 3) * dayMs] T = true := by
    simp only [hasActivityOnDay, dayMs, List.any_cons, List.any_nil,
      Bool.or_eq_true, decide_eq_true_eq]
    omega
  have h1 : hasActivityOnDay [T * dayMs, (T - 1) * dayMs, (T - 3) * dayMs] (T - 1) = true := by
    simp only [hasActivityOnDay, dayMs, List.any_cons, List.any_nil,
      Bool.or_eq_true, decide_eq_true_eq]
    omega
  have h2 : hasActivityOnDay [T * dayMs, (T - 1) * dayMs, (T - 3) * dayMs] (T - 2) = false := by
    simp only [hasActivityOnDay, dayMs, List.any_cons, List.any_nil, Bool.or_false,
      Bool.or_eq_false_iff, decide_eq_false_iff_not]
    omega
  rw [calculateLearningStreak, if_neg (by simp)]
  rw [streakAux_step _ _ _ _ _ (by norm_num) h0]
  norm_num
  rw [streakAux_step _ _ _ _ _ (by norm_num) h1]
  norm_num
  rw [show T - 1 - 1 = T - 2 by ring] at *
  rw [streakAux_stop _ _ _ _ _ (by norm_num) (by norm_num) h2]

/-- C2: the streak walk counts a day when some record's `lastAccessedAt` lies
in that calendar day and stops at the first non-qualifying day past day 0
(but never on day 0 itself): a true gap — no activity today and none
yesterday — yields streak 0 whatever older activity exists, and records whose
timestamps fall on days `T`, `T-1` and `T-3` only (none on `T-2`), computed
with today = `T`, give a streak of exactly 2, for every day `T`. -/
theorem streak_walk_day_by_day :
    (∀ (timestamps : List ℤ) (T : ℤ),
      hasActivityOnDay timestamps T = false →
      hasActivityOnDay timestamps (T - 1) = false →
      calculateLearningStreak timestamps T = 0) ∧
    (∀ T : ℤ,
      calculateLearningStreak [T * dayMs, (T - 1) * dayMs, (T - 3) * dayMs] T = 2) := by
  constructor
  · intro timestamps T h0 h1
    rw [calculateLearningStreak]
    split_ifs with he
    · rfl
    · rw [streakAux_skip _ _ _ _ (by norm_num) h0]
      norm_num
      rw [streakAux_stop _ _ _ _ _ (by norm_num) (by norm_num) h1]
  · intro T
    exact streak_on_T_Tm1_Tm3_is_two T

/-- Stated from the specification's words, as the refinement target for the
trend claim: a group with fewer than 4 scores is stable; with 4 or more,
recent = last 3 and older = the rest, improving iff
mean(recent) > mean(older) + 5, declining iff mean(recent) < mean(older) - 5,
stable otherwise. -/
def trendSpec (scores : List ℚ) : Trend :=
  if scores.length < 4 then Trend.stable
  else
    let recent := scores.drop (scores.length - 3)
    let older := scores.take (scores.length - 3)
    if listMean older + 5 < listMean recent then Trend.improving
    else if listMean recent < listMean older - 5 then Trend.declining
    else Trend.stable

theorem trendForScores_eq_trendSpec (scores : List ℚ) :
    trendForScores scores = trendSpec scores := by
  simp only [trendForScores, trendSpec, List.length_drop, List.length_take]
  split_ifs <;> first | rfl | omega

/-- C6: for every technology group of assessment scores sorted ascending by
`completedAt`, the computed trend is stable below 4 scores, and with 4 or
more compares the mean of the last 3 against the mean of the rest with a
margin of 5 — both for every entry `calculateSkillProgression` returns and
for the per-group classifier on any score list. -/
theorem skill_trend_classification :
    (∀ (assessmentHistory : List UserAssessment),
      ∀ e ∈ calculateSkillProgression assessmentHistory,
        e.trend = trendSpec (e.scores.map (fun s => s.score))) ∧
    (∀ scores : List ℚ, trendForScores scores = trendSpec scores) ∧
    trendForScores [50, 55, 60] = Trend.stable := by
  refine ⟨?_, trendForScores_eq_trendSpec, ?_⟩
  · intro assessmentHistory e he
    simp only [calculateSkillProgression, List.mem_map] at he
    obtain ⟨tech, -, rfl⟩ := he
    exact trendForScores_eq_trendSpec _
  · rfl

/-- C7: a milestone alert fires on a progress update iff the completed-module
count after the update is exactly one of 1, 5, 10, 25, 50; in particular a
count of 6 (a 4 → 6 jump) fires no milestone alert while a count of exactly 5
does. -/
theorem milestone_alert_exactness :
    (∀ (progressPercentage : ℚ) (userProgress : List TrackRec) (today : ℤ),
      ((∃ n, AlertKind.milestone n ∈ checkForAchievements progressPercentage userProgress today) ↔
        (userProgress.filter (fun p => decide (100 ≤ p.progress))).length ∈
          ([1, 5, 10, 25, 50] : List Nat))) ∧
    checkForAchievements 100 (List.replicate 6 (⟨100, -1000000000⟩ : TrackRec)) 0 =
      [AlertKind.completion] ∧
    checkForAchievements 100 (List.replicate 5 (⟨100, -1000000000⟩ : TrackRec)) 0 =
      [AlertKind.completion, AlertKind.milestone 5] := by
  refine ⟨?_, ?_, ?_⟩
  · intro progressPercentage userProgress today
    constructor
    · rintro ⟨n, hn⟩
      simp only [checkForAchievements, List.mem_append] at hn
      rcases hn with h | h | h
      · split_ifs at h <;> simp at h
      · split_ifs at h with hc
        · simp at h
          subst h
          exact hc
        · simp at h
      · split_ifs at h <;> simp at h
    · intro hc
      refine ⟨(userProgress.filter (fun p => decide (100 ≤ p.progress))).length, ?_⟩
      simp [checkForAchievements, hc]
  · decide
  · decide

/-- C9: after `updateModuleProgress` — whether it updates existing rows or
inserts a fresh one — every stored row matching `(userId, moduleId)` has a
non-null `completedAt` iff the new progress is at least 100: it is set when
progress reaches 100 and cleared whenever the new progress is below 100. -/
theorem updateModuleProgress_completedAt (table : List StoredProgress)
    (userId moduleId : String) (progress : ℚ) (now : ℤ) (r : StoredProgress)
    (hr : r ∈ updateModuleProgress table userId moduleId progress now)
    (hk : matchesKey r userId moduleId = true) :
    r.completedAt ≠ none ↔ 100 ≤ progress := by
  unfold updateModuleProgress at hr
  by_cases hA : table.any (fun s => matchesKey s userId moduleId) = true
  · rw [if_pos hA] at hr
    simp only [List.mem_map] at hr
    obtain ⟨s, -, hs⟩ := hr
    by_cases hks : matchesKey s userId moduleId = true
    · rw [if_pos hks] at hs
      subst hs
      by_cases hp : 100 ≤ progress <;> simp [hp]
    · rw [if_neg hks] at hs
      subst hs
      exact absurd hk hks
  · rw [if_neg hA] at hr
    rcases List.mem_append.mp hr with h | h
    · have hfalse : (table.any fun s => matchesKey s userId moduleId) = false :=
        Bool.eq_false_iff.mpr hA
      exact absurd hk (List.any_eq_false.mp hfalse r h)
    · simp only [List.mem_singleton] at h
      subst h
      by_cases hp : 100 ≤ progress <;> simp [hp]

/-- Witness for C9 at a concrete update: inserting progress 100 for user `u`,
module `m` into an empty table stores `completedAt = some 0`. -/
theorem updateModuleProgress_completedAt_witness :
    ((⟨"u", "m", (100 : ℚ), 0, some 0⟩ : StoredProgress).completedAt ≠ none ↔
      (100 : ℚ) ≤ 100) :=
  updateModuleProgress_completedAt [] "u" "m" 100 0
    ⟨"u", "m", 100, 0, some 0⟩ (by decide) (by decide)

/-- The descending-gap-score order is total. -/
theorem gapOrder_total : ∀ a b : SkillGap, b.gapScore ≤ a.gapScore ∨ a.gapScore ≤ b.gapScore :=
  fun a b => le_total b.gapScore a.gapScore

/-- The descending-gap-score order is transitive. -/
theorem gapOrder_trans : ∀ a b c : SkillGap,
    b.gapScore ≤ a.gapScore → c.gapScore ≤ b.gapScore → c.gapScore ≤ a.gapScore :=
  fun _ _ _ hab hbc => le_trans hbc hab

/-- C3: `identifySkillGaps` returns exactly the skills with level < 70 (as a
permutation of that filtered list), each paired with
`gapScore = (70 - level) / 70`, sorted descending by gap score; when skill
levels are non-negative every returned gap score lies in (0, 1]. -/
theorem identifySkillGaps_characterization (skills : List Skill)
    (hlv : ∀ s ∈ skills, 0 ≤ s.level) :
    (identifySkillGaps skills).Perm
      ((skills.filter (fun s => decide (s.level < 70))).map
        (fun s => (⟨s.skill, (70 - s.level) / 70⟩ : SkillGap))) ∧
    List.Pairwise (fun a b : SkillGap => b.gapScore ≤ a.gapScore) (identifySkillGaps skills) ∧
    ∀ g ∈ identifySkillGaps skills, 0 < g.gapScore ∧ g.gapScore ≤ 1 := by
  refine ⟨List.perm_insertionSort _ _, ?_, ?_⟩
  · exact @List.sorted_insertionSort SkillGap (fun a b => b.gapScore ≤ a.gapScore) _
      ⟨gapOrder_total⟩ ⟨gapOrder_trans⟩ _
  · intro g hg
    have hmem := (List.perm_insertionSort (fun a b : SkillGap => b.gapScore ≤ a.gapScore) _).mem_iff.mp hg
    simp only [List.mem_map, List.mem_filter, decide_eq_true_eq] at hmem
    obtain ⟨s, ⟨hs, hlt⟩, rfl⟩ := hmem
    constructor
    · exact div_pos (by linarith) (by norm_num)
    · rw [div_le_one (by norm_num)]
      have := hlv s hs
      linarith

/-- Witness for C3 at one skill of level 40 (and non-negative level): the
returned gap list is the singleton with gap score `(70 - 40) / 70 = 3 / 7`. -/
theorem identifySkillGaps_characterization_witness :
    ((identifySkillGaps [⟨"js", 40, 0⟩]).Perm
      ((([⟨"js", 40, 0⟩] : List Skill).filter (fun s => decide (s.level < 70))).map
        (fun s => (⟨s.skill, (70 - s.level) / 70⟩ : SkillGap))) ∧
    List.Pairwise (fun a b : SkillGap => b.gapScore ≤ a.gapScore)
      (identifySkillGaps [⟨"js", 40, 0⟩]) ∧
    ∀ g ∈ identifySkillGaps [⟨"js", 40, 0⟩], 0 < g.gapScore ∧ g.gapScore ≤ 1) ∧
    identifySkillGaps [⟨"js", 40, 0⟩] = [⟨"js", 3 / 7⟩] := by
  constructor
  · exact identifySkillGaps_characterization [⟨"js", 40, 0⟩]
      (by intro s hs; simp at hs; subst hs; norm_num)
  · simp [identifySkillGaps, List.insertionSort, List.orderedInsert]
    norm_num

/-- C1: every score `createWeightedRecommendations` produces lies in [0, 1];
in particular, with priority 100 and all four bonuses applying
(gap 1 × 0.3, +0.2 difficulty, +0.1 duration, +0.15 rating — 1.75 before the
clamp), the stored score is exactly 1. -/
theorem recommendation_scores_clamped :
    (∀ (aiRecs : List AIRec) (skillGaps : List SkillGap) (patterns : LearningPatterns)
        (allModules : List LearningModule),
      ∀ r ∈ createWeightedRecommendations aiRecs skillGaps patterns allModules,
        0 ≤ r.score ∧ r.score ≤ 1) ∧
    createWeightedRecommendations [⟨"react", "Learn React.", 100⟩] [⟨"react", 1⟩]
        ⟨"beginner", 3, 0, 0⟩ [⟨"m1", "react", "React Basics", "beginner", 3, 9 / 2⟩] =
      [⟨"m1", 1, "Learn React. This addresses a skill gap in your profile."⟩] := by
  constructor
  · intro aiRecs skillGaps patterns allModules r hr
    have hmem := (List.perm_insertionSort (fun a b : WeightedRec => b.score ≤ a.score)
      (weightedRecsRaw aiRecs skillGaps patterns allModules)).mem_iff.mp hr
    simp only [weightedRecsRaw, List.mem_flatMap, List.mem_map] at hmem
    obtain ⟨aiRec, -, m, -, rfl⟩ := hmem
    unfold weightedRecFor
    constructor
    · exact le_min (by norm_num) (le_max_left 0 _)
    · exact min_le_left 1 _
  · have hm : moduleMatches ⟨"m1", "react", "React Basics", "beginner", 3, 9 / 2⟩ "react" = true := by
      decide
    have hg : gapMatches ⟨"react", 1⟩ "react" = true := by decide
    simp only [createWeightedRecommendations, weightedRecsRaw, List.flatMap_cons,
      List.flatMap_nil, List.filter_cons, hm, List.filter_nil, List.map_cons, List.map_nil,
      List.append_nil, List.insertionSort]
    simp only [weightedRecFor, List.find?_cons, hg, Option.isSome_some, if_true]
    norm_num
    decide

/-- The descending-score order on weighted recommendations is total. -/
theorem recOrder_total : ∀ a b : WeightedRec, b.score ≤ a.score ∨ a.score ≤ b.score :=
  fun a b => le_total b.score a.score

/-- The descending-score order on weighted recommendations is transitive. -/
theorem recOrder_trans : ∀ a b c : WeightedRec,
    b.score ≤ a.score → c.score ≤ b.score → c.score ≤ a.score :=
  fun _ _ _ hab hbc => le_trans hbc hab

/-- Counterexample to C4's "without reordering": on two suggestions for the
same module with priorities 10 then 90 (no bonuses), the scorer's return
value differs from the generation-order list — its final
`sort((a, b) => b.score - a.score)` swaps them. -/
theorem scorer_reorders_counterexample :
    createWeightedRecommendations [⟨"a", "r1", 10⟩, ⟨"a", "r2", 90⟩] []
        ⟨"x", 0, 0, 0⟩ [⟨"m1", "a", "t", "y", 5, 0⟩] ≠
      weightedRecsRaw [⟨"a", "r1", 10⟩, ⟨"a", "r2", 90⟩] []
        ⟨"x", 0, 0, 0⟩ [⟨"m1", "a", "t", "y", 5, 0⟩] := by
  have hm : moduleMatches ⟨"m1", "a", "t", "y", 5, 0⟩ "a" = true := by decide
  have hd : ¬(("y" : String) = "x") := by decide
  simp only [createWeightedRecommendations, weightedRecsRaw, List.flatMap_cons,
    List.flatMap_nil, List.filter_cons, hm, List.filter_nil, List.map_cons, List.map_nil,
    List.append_nil, List.insertionSort, List.orderedInsert, weightedRecFor, List.find?_nil,
    Option.isSome_none, if_neg hd]
  norm_num
  intro h1 h2 h3
  exact absurd h2 (by decide)

/-- C4 as the code has it: the scorer itself returns the generated tuples
sorted descending by score (a permutation of the generation-order list), and
the consuming query layer sorts descending by score as well. -/
theorem scorer_returns_sorted_descending :
    (∀ (aiRecs : List AIRec) (skillGaps : List SkillGap) (patterns : LearningPatterns)
        (allModules : List LearningModule),
      (createWeightedRecommendations aiRecs skillGaps patterns allModules).Perm
          (weightedRecsRaw aiRecs skillGaps patterns allModules) ∧
        List.Pairwise (fun a b : WeightedRec => b.score ≤ a.score)
          (createWeightedRecommendations aiRecs skillGaps patterns allModules)) ∧
    (∀ (recommendations : List WeightedRec) (limit : Nat),
      List.Pairwise (fun a b : WeightedRec => b.score ≤ a.score)
        (getUserRecommendations recommendations limit)) := by
  constructor
  · intro aiRecs skillGaps patterns allModules
    exact ⟨List.perm_insertionSort _ _,
      @List.sorted_insertionSort WeightedRec (fun a b => b.score ≤ a.score) _
        ⟨recOrder_total⟩ ⟨recOrder_trans⟩ _⟩
  · intro recommendations limit
    exact List.Pairwise.sublist (List.take_sublist _ _)
      (@List.sorted_insertionSort WeightedRec (fun a b => b.score ≤ a.score) _
        ⟨recOrder_total⟩ ⟨recOrder_trans⟩ _)

/-- Counterexample to C5: a user whose profile exists but has an empty skills
list — the schema default, so exactly a "no data yet" user — does NOT get the
"cannot compute" failure: `!profile.skills` is false on an empty (truthy) JS
array, so generation silently completes with an empty result. -/
theorem empty_skills_profile_completes_silently :
    generatePersonalizedRecommendations (some ⟨some []⟩) [] [] [] [] =
      Except.ok ([] : List WeightedRec) := by
  rfl

/-- C5 as the code has it: recommendation generation fails with the distinct
"User profile not found or incomplete" error exactly when the profile row is
absent or its `skills` column is null; a profile whose skills list is present
(even empty) proceeds. -/
theorem generation_fails_iff_profile_or_skills_null :
    ∀ (profile : Option Profile) (assessmentHistory : List UserAssessment)
      (moduleProgress : List PatternProgress) (aiRecommendations : List AIRec)
      (allModules : List LearningModule),
      ((∃ msg, generatePersonalizedRecommendations profile assessmentHistory
          moduleProgress aiRecommendations allModules = Except.error msg) ↔
        (profile = none ∨ ∃ q, profile = some q ∧ q.skills = none)) := by
  intro profile assessmentHistory moduleProgress aiRecommendations allModules
  match profile with
  | none => simp [generatePersonalizedRecommendations]
  | some ⟨none⟩ =>
    simp only [generatePersonalizedRecommendations]
    constructor
    · intro _
      exact Or.inr ⟨⟨none⟩, rfl, rfl⟩
    · intro _
      exact ⟨"User profile not found or incomplete", rfl⟩
  | some ⟨some skills⟩ =>
    simp only [generatePersonalizedRecommendations]
    constructor
    · rintro ⟨msg, h⟩
      cases h
    · rintro (h | ⟨q, hq, hs⟩)
      · cases h
      · cases hq
        cases hs

theorem analyzeLearningPatterns_preferredDifficulty (assessmentHistory : List UserAssessment)
    (moduleProgress : List PatternProgress) :
    (analyzeLearningPatterns assessmentHistory moduleProgress).preferredDifficulty =
      if 0 < assessmentHistory.length then
        ((keysInOrder (assessmentHistory.map (fun a => a.difficulty))).foldl
          (bestDifficultyStep
            (fun d => listMean (scoresForDifficulty assessmentHistory d)))
          ("intermediate", 0)).1
      else "intermediate" := rfl

theorem foldl_best_const (f : String → ℚ) (l : List String) (name : String) (m : ℚ)
    (h : ∀ x ∈ l, f x ≤ m) :
    l.foldl (bestDifficultyStep f) (name, m) = (name, m) := by
  induction l with
  | nil => rfl
  | cons x xs ih =>
    have hx : ¬ m < f x := not_lt.mpr (h x (List.mem_cons_self x xs))
    rw [List.foldl_cons,
      show bestDifficultyStep f (name, m) x = (name, m) by simp [bestDifficultyStep, hx]]
    exact ih (fun y hy => h y (List.mem_cons_of_mem x hy))

theorem foldl_best_wins (f : String → ℚ) (l : List String) (d : String)
    (hd : d ∈ l) (hmax : ∀ x ∈ l, x ≠ d → f x < f d) :
    ∀ acc : String × ℚ, acc.2 < f d → l.foldl (bestDifficultyStep f) acc = (d, f d) := by
  induction l with
  | nil => exact absurd hd (List.not_mem_nil d)
  | cons x xs ih =>
    intro acc hacc
    rw [List.foldl_cons]
    by_cases hx : x = d
    · subst hx
      rw [show bestDifficultyStep f acc x = (x, f x) by simp [bestDifficultyStep, hacc]]
      refine foldl_best_const f xs x (f x) (fun y hy => ?_)
      by_cases hyx : y = x
      · exact le_of_eq (by rw [hyx])
      · exact le_of_lt (hmax y (List.mem_cons_of_mem x hy) hyx)
    · have hdx : d ∈ xs := by
        rcases List.mem_cons.mp hd with h | h
        · exact absurd h.symm hx
        · exact h
      have hacc2 : (bestDifficultyStep f acc x).2 < f d := by
        unfold bestDifficultyStep
        split_ifs with hlt
        · exact hmax x (List.mem_cons_self x xs) hx
        · exact hacc
      exact ih hdx (fun y hy hyd => hmax y (List.mem_cons_of_mem x hy) hyd) _ hacc2

/-- Counterexample to C8: a non-empty history whose only difficulty,
`beginner`, has mean score 0 — so `beginner` is the difficulty with the
highest mean — still yields the default `intermediate`: the fold starts its
best average at 0 and only replaces on a strictly larger one. -/
theorem preferred_difficulty_zero_mean_counterexample :
    ([⟨"t", "beginner", 0, 0⟩] : List UserAssessment) ≠ [] ∧
    keysInOrder (([⟨"t", "beginner", 0, 0⟩] : List UserAssessment).map
      (fun a => a.difficulty)) = ["beginner"] ∧
    (analyzeLearningPatterns [⟨"t", "beginner", 0, 0⟩] []).preferredDifficulty =
      "intermediate" := by
  refine ⟨by simp, by decide, ?_⟩
  rw [analyzeLearningPatterns_preferredDifficulty, if_pos (by norm_num)]
  norm_num [keysInOrder, bestDifficultyStep, scoresForDifficulty, listMean]

/-- C8 as the code has it: with a non-empty history, `preferredDifficulty` is
the difficulty whose assessments have the strictly highest mean score
provided that mean is positive; when every difficulty's mean is at most 0 (or
there is no history at all) it stays the default `intermediate`. -/
theorem preferred_difficulty_argmax :
    (∀ (assessmentHistory : List UserAssessment) (moduleProgress : List PatternProgress)
        (d : String),
      d ∈ keysInOrder (assessmentHistory.map (fun a => a.difficulty)) →
      0 < listMean (scoresForDifficulty assessmentHistory d) →
      (∀ x ∈ keysInOrder (assessmentHistory.map (fun a => a.difficulty)), x ≠ d →
        listMean (scoresForDifficulty assessmentHistory x) <
          listMean (scoresForDifficulty assessmentHistory d)) →
      (analyzeLearningPatterns assessmentHistory moduleProgress).preferredDifficulty = d) ∧
    (∀ (assessmentHistory : List UserAssessment) (moduleProgress : List PatternProgress),
      (∀ x ∈ keysInOrder (assessmentHistory.map (fun a => a.difficulty)),
        listMean (scoresForDifficulty assessmentHistory x) ≤ 0) →
      (analyzeLearningPatterns assessmentHistory moduleProgress).preferredDifficulty =
        "intermediate") := by
  constructor
  · intro assessmentHistory moduleProgress d hd hpos hmax
    have hne : 0 < assessmentHistory.length := by
      by_contra hlen
      have : assessmentHistory = [] := List.length_eq_zero.mp (by omega)
      subst this
      simp [keysInOrder] at hd
    rw [analyzeLearningPatterns_preferredDifficulty, if_pos hne,
      foldl_best_wins _ _ d hd hmax ("intermediate", 0) (by simpa using hpos)]
  · intro assessmentHistory moduleProgress hle
    rw [analyzeLearningPatterns_preferredDifficulty]
    by_cases hne : 0 < assessmentHistory.length
    · rw [if_pos hne, foldl_best_const _ _ _ _ (fun x hx => by simpa using hle x hx)]
    · rw [if_neg hne]

end DevSkill
